import Mathlib

/-!
Shallow embedding of the JSON value builder in `src/p-json/src/main.rs`
(`parse_value`, `parse_array`, `parse_object`) together with the pieces of
its environment the builder observes: pest parse-tree nodes (`Pair`), the
grammar-rule labels it dispatches on, Rust's `bool::from_str` and
`f64::from_str` conversions, and the `HashMap` insertion semantics used
when collecting object entries.
-/

set_option maxHeartbeats 1000000

namespace PJson

/-- Grammar-rule labels of the pest `Rule` enum that the builder dispatches
on.  The seven labels handled by `parse_value` are explicit constructors;
`other s` stands for every remaining rule of the grammar (`json`, `string`,
`pair`, ...), carrying its printed name as the builder's panic message
formats it. -/
inductive Rule where
  | chars
  | number
  | bool
  | null
  | array
  | object
  | value
  | other (label : String)
deriving DecidableEq

/-- A pest parse-tree node as the builder observes it: its rule label
(`pair.as_rule()`), its matched source text (`pair.as_str()`), and its
ordered children (`pair.into_inner()`). -/
inductive Pair where
  | mk (rule : Rule) (text : String) (children : List Pair)

/-- Rule label of a node. -/
def Pair.rule : Pair → Rule
  | .mk r _ _ => r

/-- Matched text of a node. -/
def Pair.text : Pair → String
  | .mk _ t _ => t

/-- Children of a node. -/
def Pair.children : Pair → List Pair
  | .mk _ _ cs => cs

/-- Model of a parsed `f64` as `f64::from_str` produces it, keeping the
decimal value exact instead of rounding it to binary64: a finite result
records the sign bit, the significand read off the digits, and the power of
ten scaling it (`decValue` gives the exact rational value; rounding to
binary64 is a fixed function of this data, so equalities and the sign of
zero transfer); `inf` and `nan` model the special spellings `from_str`
accepts. -/
inductive F64Val where
  | finite (neg : Bool) (sig : ℕ) (exp10 : ℤ)
  | inf (neg : Bool)
  | nan
deriving DecidableEq

/-- Exact rational value of a finite decimal-float result:
`(-1)^neg * sig * 10^exp10`. -/
def decValue (neg : Bool) (sig : ℕ) (exp10 : ℤ) : ℚ :=
  (if neg then -1 else 1) * (sig : ℚ) * (10 : ℚ) ^ exp10

/-- The semantic value tree built by the program (`enum JsonValue` in
`main.rs`).  `Object` carries the association-list model of
`HashMap<String, JsonValue>`: what the map holds after the insertions, see
`insertEntry` / `mkHashMap`. -/
inductive JsonValue where
  | Null
  | Bool (b : Bool)
  | Number (n : F64Val)
  | String (s : String)
  | Array (vs : List JsonValue)
  | Object (m : List (String × JsonValue))

/-- The error values the builder returns through `anyhow::Result`:
`structureError` for the `anyhow!("expected key")` / `anyhow!("expected
value")` messages, `conversionError` for a failed `str::parse` of a
primitive. -/
inductive JsonError where
  | structureError (msg : String)
  | conversionError
deriving DecidableEq

/-- Outcome of running the builder on a node: a normal `Ok` value, a normal
`Err` result, or a process abort from the `panic!` in the dispatch fallback
(which in Rust is not a return value at all; it is kept apart from `err` so
the two cannot be confused). -/
inductive BuildResult (α : Type) where
  | ok (v : α)
  | err (e : JsonError)
  | panic (msg : String)

/-- Rust `bool::from_str`: `"true"` and `"false"` only. -/
def parseBool (s : String) : Option Bool :=
  if s = "true" then some true
  else if s = "false" then some false
  else none

/-- Numeric value of a list of decimal digit characters, most significant
first. -/
def digitsToNat (ds : List Char) : Nat :=
  ds.foldl (fun n c => n * 10 + (c.toNat - 48)) 0

/-- ASCII lowercasing of a character, for the case-insensitive special
spellings `f64::from_str` accepts. -/
def lowerChar (c : Char) : Char :=
  if 65 ≤ c.toNat ∧ c.toNat ≤ 90 then Char.ofNat (c.toNat + 32) else c

/-- Model of Rust `f64::from_str` (the conversion behind
`pair.as_str().parse::<f64>()`): optional sign; then a case-insensitive
`inf`, `infinity` or `nan`, or a decimal mantissa (digits with an optional
point, at least one digit overall) with an optional `e`/`E` exponent.  The
finite value is kept exact, as sign bit, significand and decimal exponent,
instead of being rounded to binary64. -/
def parseF64 (s : String) : Option F64Val :=
  let cs := s.toList
  let (neg, cs) :=
    match cs with
    | '-' :: rest => (true, rest)
    | '+' :: rest => (false, rest)
    | rest => (false, rest)
  let low := cs.map lowerChar
  if low = "inf".toList ∨ low = "infinity".toList then
    some (.inf neg)
  else if low = "nan".toList then
    some .nan
  else
    let intDs := cs.takeWhile Char.isDigit
    let rest := cs.dropWhile Char.isDigit
    let (fracDs, rest) :=
      match rest with
      | '.' :: tail => (tail.takeWhile Char.isDigit, tail.dropWhile Char.isDigit)
      | _ => ([], rest)
    if intDs = [] ∧ fracDs = [] then none
    else
      let expPart : Option Int :=
        match rest with
        | [] => some 0
        | e :: tail =>
          if e = 'e' ∨ e = 'E' then
            let (eneg, tail) :=
              match tail with
              | '-' :: t => (true, t)
              | '+' :: t => (false, t)
              | t => (false, t)
            let expDs := tail.takeWhile Char.isDigit
            let tail := tail.dropWhile Char.isDigit
            if expDs = [] ∨ tail ≠ [] then none
            else some (if eneg then -(digitsToNat expDs : Int) else (digitsToNat expDs : Int))
          else none
      match expPart with
      | none => none
      | some e =>
        some (.finite neg (digitsToNat intDs * 10 ^ fracDs.length + digitsToNat fracDs)
          (e - fracDs.length))

/-- Model of `HashMap::insert` on the association list: replace the value if
the key is present, otherwise append the new entry. -/
def insertEntry : List (String × JsonValue) → String → JsonValue → List (String × JsonValue)
  | [], k, v => [(k, v)]
  | (k', v') :: rest, k, v =>
    if k' = k then (k, v) :: rest else (k', v') :: insertEntry rest k v

/-- The map obtained by inserting the collected `(key, value)` entries in
order into an empty `HashMap` (`collect::<Result<HashMap<_, _>>>`). -/
def mkHashMap (es : List (String × JsonValue)) : List (String × JsonValue) :=
  es.foldl (fun m kv => insertEntry m kv.1 kv.2) []

/-- Model of `HashMap::get` on the association list. -/
def lookupEntry : List (String × JsonValue) → String → Option JsonValue
  | [], _ => none
  | kv :: m, k => if kv.1 = k then some kv.2 else lookupEntry m k

mutual

/-- The function `parse_value` from `main.rs`: dispatch on the node's rule label. -/
def parse_value : Pair → BuildResult JsonValue
  | .mk r text children =>
    match r with
    | .chars => .ok (.String text)
    | .number =>
      match parseF64 text with
      | some v => .ok (.Number v)
      | none => .err .conversionError
    | .bool =>
      match parseBool text with
      | some b => .ok (.Bool b)
      | none => .err .conversionError
    | .null => .ok .Null
    | .array =>
      match parse_array children with
      | .ok vs => .ok (.Array vs)
      | .err e => .err e
      | .panic m => .panic m
    | .object =>
      match parse_entries children with
      | .ok es => .ok (.Object (mkHashMap es))
      | .err e => .err e
      | .panic m => .panic m
    | .value =>
      match children with
      | [] => .err (.structureError "expected value")
      | c :: _ => parse_value c
    | .other label => .panic label

/-- The function `parse_array` from `main.rs`:
`pair.into_inner().map(parse_value).collect()` — build each child in order,
stopping at the first failure. -/
def parse_array : List Pair → BuildResult (List JsonValue)
  | [] => .ok []
  | c :: cs =>
    match parse_value c with
    | .ok v =>
      match parse_array cs with
      | .ok vs => .ok (v :: vs)
      | .err e => .err e
      | .panic m => .panic m
    | .err e => .err e
    | .panic m => .panic m

/-- One object entry as `parse_object`'s closure processes it: the first
grandchild's matched text is the key (`inner.next()` then `as_str`),
absent first grandchild is `anyhow!("expected key")`; the second grandchild
is built recursively as the value, absent second grandchild is
`anyhow!("expected value")`; grandchildren past the second are ignored. -/
def parse_entry : Pair → BuildResult (String × JsonValue)
  | .mk _ _ [] => .err (.structureError "expected key")
  | .mk _ _ [_] => .err (.structureError "expected value")
  | .mk _ _ (k :: v :: _) =>
    match parse_value v with
    | .ok jv => .ok (k.text, jv)
    | .err e => .err e
    | .panic m => .panic m

/-- The entry collection of `parse_object`: process each child pair-node in
order, stopping at the first failure (the `values.collect::<Result<...>>`).
The successful prefix is returned as the ordered entry list; `parse_value`
folds it into the map with `mkHashMap`. -/
def parse_entries : List Pair → BuildResult (List (String × JsonValue))
  | [] => .ok []
  | c :: cs =>
    match parse_entry c with
    | .ok kv =>
      match parse_entries cs with
      | .ok es => .ok (kv :: es)
      | .err e => .err e
      | .panic m => .panic m
    | .err e => .err e
    | .panic m => .panic m

end

/-- The built value of a node when building it succeeds, `none` otherwise;
the element-level view of `parse_array`. -/
def buildOk (c : Pair) : Option JsonValue :=
  match parse_value c with
  | .ok v => some v
  | _ => none

/-- Matched text of a pair-node's first grandchild, the entry's key; `""`
when there is no grandchild (the builder then fails before using any key).
-/
def keyText (p : Pair) : String :=
  match p.children with
  | k :: _ => k.text
  | [] => ""

/-- Value of the last entry of the list carrying key `k` (entries further
down the list take precedence over the head), `none` when no entry carries
it: the duplicate-key semantics repeated `HashMap` insertion produces. -/
def lastLookup : List (String × JsonValue) → String → Option JsonValue
  | [], _ => none
  | kv :: es, k => (lastLookup es k).or (if kv.1 = k then some kv.2 else none)

/-- Whether a rule label is one of the seven the dispatch of `parse_value`
handles. -/
def isHandledRule : Rule → Bool
  | .other _ => false
  | _ => true

mutual

/-- Every rule label in the tree is one of the seven handled ones. -/
def allHandled : Pair → Bool
  | .mk r _ cs => isHandledRule r && allHandledList cs

/-- Every rule label in every tree of the list is handled. -/
def allHandledList : List Pair → Bool
  | [] => true
  | c :: cs => allHandled c && allHandledList cs

end

/-! Theorems. -/

/-- Building a child list succeeds with `vs` exactly when `vs` has one element per
child, each the successful build of the child at the same position. -/
theorem parse_array_eq_ok_iff (cs : List Pair) (vs : List JsonValue) :
    parse_array cs = .ok vs ↔
      vs.length = cs.length ∧ ∀ i : ℕ, vs[i]? = (cs[i]?).bind buildOk := by
  induction cs generalizing vs with
  | nil =>
    constructor
    · intro h
      simp only [parse_array] at h
      cases h
      simp
    · rintro ⟨h1, _⟩
      simp only [List.length_nil] at h1
      rw [List.eq_nil_of_length_eq_zero h1]
      simp [parse_array]
  | cons c cs ih =>
    cases hv : parse_value c with
    | ok v =>
      cases ha : parse_array cs with
      | ok ws =>
        simp only [parse_array, hv, ha]
        constructor
        · intro h
          cases h
          obtain ⟨h1, h2⟩ := (ih ws).mp ha
          refine ⟨by simp [h1], ?_⟩
          intro i
          match i with
          | 0 => simp [buildOk, hv]
          | n + 1 => simpa using h2 n
        · rintro ⟨h1, h2⟩
          match vs, h1 with
          | w :: vs, h1 =>
            have h0 := h2 0
            simp [buildOk, hv] at h0
            have hr : parse_array cs = .ok vs :=
              (ih vs).mpr ⟨by simpa using h1, fun i => by simpa using h2 (i + 1)⟩
            rw [ha] at hr
            cases hr
            rw [h0]
      | err e =>
        simp only [parse_array, hv, ha]
        constructor
        · intro h; cases h
        · rintro ⟨h1, h2⟩
          match vs, h1 with
          | w :: vs, h1 =>
            have hr : parse_array cs = .ok vs :=
              (ih vs).mpr ⟨by simpa using h1, fun i => by simpa using h2 (i + 1)⟩
            rw [ha] at hr
            cases hr
      | panic m =>
        simp only [parse_array, hv, ha]
        constructor
        · intro h; cases h
        · rintro ⟨h1, h2⟩
          match vs, h1 with
          | w :: vs, h1 =>
            have hr : parse_array cs = .ok vs :=
              (ih vs).mpr ⟨by simpa using h1, fun i => by simpa using h2 (i + 1)⟩
            rw [ha] at hr
            cases hr
    | err e =>
      simp only [parse_array, hv]
      constructor
      · intro h; cases h
      · rintro ⟨h1, h2⟩
        match vs, h1 with
        | w :: vs, h1 =>
          have h0 := h2 0
          simp [buildOk, hv] at h0
    | panic m =>
      simp only [parse_array, hv]
      constructor
      · intro h; cases h
      · rintro ⟨h1, h2⟩
        match vs, h1 with
        | w :: vs, h1 =>
          have h0 := h2 0
          simp [buildOk, hv] at h0

/-- Building a child list succeeds exactly when building every child succeeds. -/
theorem parse_array_exists_ok_iff (cs : List Pair) :
    (∃ vs, parse_array cs = .ok vs) ↔ ∀ c ∈ cs, ∃ v, parse_value c = .ok v := by
  induction cs with
  | nil => simp [parse_array]
  | cons c cs ih =>
    rw [List.forall_mem_cons, ← ih]
    cases hv : parse_value c with
    | ok v =>
      cases ha : parse_array cs with
      | ok ws => simp [parse_array, hv, ha]
      | err e => simp [parse_array, hv, ha]
      | panic m => simp [parse_array, hv, ha]
    | err e => simp [parse_array, hv]
    | panic m => simp [parse_array, hv]

/-- Once a prefix of children builds successfully, a failing child's error
becomes the error of the whole child list, whatever follows it. -/
theorem parse_array_append_err (cs1 : List Pair) (c : Pair) (cs2 : List Pair)
    (e : JsonError) (h1 : ∀ x ∈ cs1, ∃ v, parse_value x = .ok v)
    (h2 : parse_value c = .err e) :
    parse_array (cs1 ++ c :: cs2) = .err e := by
  induction cs1 with
  | nil => simp [parse_array, h2]
  | cons x cs1 ih =>
    obtain ⟨v, hv⟩ := h1 x (by simp)
    have := ih (fun y hy => h1 y (by simp [hy]))
    simp [parse_array, hv, this]

/-- Analogue of `parse_array_append_err` for object entries. -/
theorem parse_entries_append_err (cs1 : List Pair) (c : Pair) (cs2 : List Pair)
    (e : JsonError) (h1 : ∀ x ∈ cs1, ∃ kv, parse_entry x = .ok kv)
    (h2 : parse_entry c = .err e) :
    parse_entries (cs1 ++ c :: cs2) = .err e := by
  induction cs1 with
  | nil => simp [parse_entries, h2]
  | cons x cs1 ih =>
    obtain ⟨kv, hkv⟩ := h1 x (by simp)
    have := ih (fun y hy => h1 y (by simp [hy]))
    simp [parse_entries, hkv, this]

/-- C2: an `array` node builds successfully exactly when every child
builds successfully; on success the sequence has one element per child, in
child order, each element the recursive build of the child at the same
position; an `array` node with no children builds to the empty sequence. -/
theorem c2_array_build :
    (∀ t, parse_value (.mk .array t []) = .ok (.Array []))
    ∧ (∀ t cs vs, parse_value (.mk .array t cs) = .ok (.Array vs) ↔
        vs.length = cs.length ∧ ∀ i : ℕ, vs[i]? = (cs[i]?).bind buildOk)
    ∧ (∀ t cs, (∃ v, parse_value (.mk .array t cs) = .ok v) ↔
        ∀ c ∈ cs, ∃ w, parse_value c = .ok w) := by
  refine ⟨?_, ?_, ?_⟩
  · intro t
    simp [parse_value, parse_array]
  · intro t cs vs
    rw [← parse_array_eq_ok_iff]
    cases h : parse_array cs with
    | ok ws => simp [parse_value, h]
    | err e => simp [parse_value, h]
    | panic m => simp [parse_value, h]
  · intro t cs
    rw [← parse_array_exists_ok_iff]
    cases h : parse_array cs with
    | ok ws => simp [parse_value, h]
    | err e => simp [parse_value, h]
    | panic m => simp [parse_value, h]

/-- Witness for C2 at a concrete two-child array. -/
theorem c2_array_build_witness :
    parse_value (.mk .array "" [.mk .null "null" [], .mk .bool "true" []]) =
      .ok (.Array [.Null, .Bool true]) := by
  have h := (c2_array_build.2.1 "" [.mk .null "null" [], .mk .bool "true" []]
    [.Null, .Bool true]).mpr
  refine h ⟨by simp, ?_⟩
  intro i
  match i with
  | 0 => simp [buildOk, parse_value]
  | 1 => simp [buildOk, parse_value, parseBool]
  | n + 2 => simp

/-- C3: once the children before it build successfully, the first failing
child (or entry) at a level determines the whole result: its error is
returned unchanged, whatever siblings follow it, and no partial value is
produced (the outcome is the single error). -/
theorem c3_first_failure_propagates :
    (∀ t cs1 c cs2 e, (∀ x ∈ cs1, ∃ v, parse_value x = .ok v) →
      parse_value c = .err e →
      parse_value (.mk .array t (cs1 ++ c :: cs2)) = .err e)
    ∧ (∀ t cs1 c cs2 e, (∀ x ∈ cs1, ∃ kv, parse_entry x = .ok kv) →
      parse_entry c = .err e →
      parse_value (.mk .object t (cs1 ++ c :: cs2)) = .err e) := by
  constructor
  · intro t cs1 c cs2 e h1 h2
    simp [parse_value, parse_array_append_err cs1 c cs2 e h1 h2]
  · intro t cs1 c cs2 e h1 h2
    simp [parse_value, parse_entries_append_err cs1 c cs2 e h1 h2]

/-- Witness for C3: in a three-child array whose second child is an empty
`value` wrapper, the build returns that child's structure error even though
a healthy third child follows. -/
theorem c3_first_failure_propagates_witness :
    parse_value (.mk .array ""
      [.mk .null "null" [], .mk .value "" [], .mk .bool "true" []]) =
      .err (.structureError "expected value") := by
  have h := c3_first_failure_propagates.1 "" [.mk .null "null" []]
    (.mk .value "" []) [.mk .bool "true" []] (.structureError "expected value")
  exact h (by intro x hx; simp at hx; subst hx; exact ⟨.Null, by simp [parse_value]⟩)
    (by simp [parse_value])

/-- C1: an `object` node's children are processed as key/value pair nodes:
the first grandchild's matched text becomes the key and the second
grandchild is built recursively as the value; a child with no grandchild
fails with the `"expected key"` structure error, a child with exactly one
grandchild fails with the `"expected value"` structure error. -/
theorem c1_object_entry_structure :
    (∀ t r s rest, parse_value (.mk .object t (.mk r s [] :: rest)) =
      .err (.structureError "expected key"))
    ∧ (∀ t r s k rest, parse_value (.mk .object t (.mk r s [k] :: rest)) =
      .err (.structureError "expected value"))
    ∧ (∀ t r s k v extra, parse_value (.mk .object t [.mk r s (k :: v :: extra)]) =
      match parse_value v with
      | .ok jv => .ok (.Object [(k.text, jv)])
      | .err e => .err e
      | .panic m => .panic m) := by
  refine ⟨?_, ?_, ?_⟩
  · intro t r s rest
    simp [parse_value, parse_entries, parse_entry]
  · intro t r s k rest
    simp [parse_value, parse_entries, parse_entry]
  · intro t r s k v extra
    cases hv : parse_value v <;>
      simp [parse_value, parse_entries, parse_entry, mkHashMap, insertEntry, hv]

/-- Inserting then looking up: the inserted key now maps to the new value,
every other key is untouched. -/
theorem lookupEntry_insertEntry (m : List (String × JsonValue))
    (k : String) (v : JsonValue) (q : String) :
    lookupEntry (insertEntry m k v) q = if q = k then some v else lookupEntry m q := by
  induction m with
  | nil =>
    by_cases h : q = k
    · subst h; simp [insertEntry, lookupEntry]
    · simp [insertEntry, lookupEntry, h, Ne.symm h]
  | cons kv m ih =>
    obtain ⟨k0, v0⟩ := kv
    by_cases h0 : k0 = k
    · subst h0
      by_cases h : q = k0
      · subst h; simp [insertEntry, lookupEntry]
      · simp [insertEntry, lookupEntry, h, Ne.symm h]
    · by_cases h : q = k0
      · subst h
        simp [insertEntry, lookupEntry, h0]
      · simp [insertEntry, lookupEntry, h0, Ne.symm h, ih]

/-- Looking up the map built by folding insertions over an initial map:
the last matching collected entry answers, and only when none matches does
the initial map. -/
theorem lookupEntry_foldl (es : List (String × JsonValue))
    (m : List (String × JsonValue)) (k : String) :
    lookupEntry (es.foldl (fun m kv => insertEntry m kv.1 kv.2) m) k =
      (lastLookup es k).or (lookupEntry m k) := by
  induction es generalizing m with
  | nil => simp [lastLookup]
  | cons kv es ih =>
    rw [List.foldl_cons, ih, lookupEntry_insertEntry]
    simp only [lastLookup]
    cases h : lastLookup es k with
    | some v => simp
    | none =>
      by_cases hk : kv.1 = k
      · simp [hk]
      · simp [hk, Ne.symm hk]

/-- Lookup in the collected map is the last collected entry with that key.
-/
theorem lookupEntry_mkHashMap (es : List (String × JsonValue)) (k : String) :
    lookupEntry (mkHashMap es) k = lastLookup es k := by
  rw [mkHashMap, lookupEntry_foldl]
  cases h : lastLookup es k <;> simp [lookupEntry]

/-- The last-entry lookup answers exactly on the keys the entry list carries. -/
theorem lastLookup_isSome (es : List (String × JsonValue)) (k : String) :
    (lastLookup es k).isSome ↔ k ∈ es.map Prod.fst := by
  induction es with
  | nil => simp [lastLookup]
  | cons kv es ih =>
    by_cases h : kv.1 = k
    · cases hl : lastLookup es k <;> simp [lastLookup, h, hl]
    · cases hl : lastLookup es k <;>
        simp [lastLookup, h, hl, ← ih, Ne.symm h]

/-- The collected map holds a key exactly when some collected entry carries
it. -/
theorem lookupEntry_mkHashMap_isSome (es : List (String × JsonValue)) (k : String) :
    (lookupEntry (mkHashMap es) k).isSome ↔ k ∈ es.map Prod.fst := by
  rw [lookupEntry_mkHashMap, lastLookup_isSome]

/-- The keys of successfully collected entries are the matched texts of the
children's first grandchildren, in order. -/
theorem parse_entries_map_fst (cs : List Pair) (es : List (String × JsonValue))
    (h : parse_entries cs = .ok es) : es.map Prod.fst = cs.map keyText := by
  induction cs generalizing es with
  | nil =>
    simp only [parse_entries] at h
    cases h
    simp
  | cons c cs ih =>
    match c with
    | .mk r s [] => simp [parse_entries, parse_entry] at h
    | .mk r s [k] => simp [parse_entries, parse_entry] at h
    | .mk r s (k :: v :: extra) =>
      cases hv : parse_value v with
      | ok jv =>
        cases he : parse_entries cs with
        | ok es' =>
          simp only [parse_entries, parse_entry, hv, he] at h
          cases h
          simp [keyText, Pair.children, ih es' he]
        | err e => simp [parse_entries, parse_entry, hv, he] at h
        | panic m => simp [parse_entries, parse_entry, hv, he] at h
      | err e => simp [parse_entries, parse_entry, hv] at h
      | panic m => simp [parse_entries, parse_entry, hv] at h

/-- C5: when every entry of an `object` node builds, the result is the map
collected from the entries; its key set is exactly the set of the key
grandchildren's matched texts, and a duplicated key maps to the value of
the last entry carrying it (last-write-wins, no error). -/
theorem c5_object_keys_last_write_wins (t : String) (cs : List Pair)
    (es : List (String × JsonValue)) (h : parse_entries cs = .ok es) :
    parse_value (.mk .object t cs) = .ok (.Object (mkHashMap es))
    ∧ es.map Prod.fst = cs.map keyText
    ∧ (∀ k, (lookupEntry (mkHashMap es) k).isSome ↔ k ∈ cs.map keyText)
    ∧ (∀ k, lookupEntry (mkHashMap es) k = lastLookup es k) := by
  refine ⟨by simp [parse_value, h], parse_entries_map_fst cs es h, ?_, ?_⟩
  · intro k
    rw [lookupEntry_mkHashMap_isSome, parse_entries_map_fst cs es h]
  · intro k
    exact lookupEntry_mkHashMap es k

/-- Witness for C5 at a concrete object with a duplicated key `"a"`: the
later entry's value wins. -/
theorem c5_object_keys_last_write_wins_witness :
    parse_value (.mk .object ""
        [.mk (.other "pair") "" [.mk .chars "a" [], .mk .null "null" []],
         .mk (.other "pair") "" [.mk .chars "a" [], .mk .bool "true" []]]) =
      .ok (.Object [("a", .Bool true)])
    ∧ lookupEntry (mkHashMap [("a", JsonValue.Null), ("a", .Bool true)]) "a" =
      some (.Bool true) := by
  have h := c5_object_keys_last_write_wins ""
    [.mk (.other "pair") "" [.mk .chars "a" [], .mk .null "null" []],
     .mk (.other "pair") "" [.mk .chars "a" [], .mk .bool "true" []]]
    [("a", JsonValue.Null), ("a", .Bool true)]
    (by rfl)
  refine ⟨?_, ?_⟩
  · rw [h.1]
    rfl
  · rw [h.2.2.2 "a"]
    rfl

/-- C6: a `bool` node builds to `Bool true` on matched text `"true"`, to
`Bool false` on `"false"`, and fails with a conversion error on every other
matched text. -/
theorem c6_bool_parse :
    (∀ cs, parse_value (.mk .bool "true" cs) = .ok (.Bool true))
    ∧ (∀ cs, parse_value (.mk .bool "false" cs) = .ok (.Bool false))
    ∧ (∀ s cs, s ≠ "true" → s ≠ "false" →
      parse_value (.mk .bool s cs) = .err .conversionError) := by
  refine ⟨?_, ?_, ?_⟩
  · intro cs; simp [parse_value, parseBool]
  · intro cs; simp [parse_value, parseBool]
  · intro s cs h1 h2; simp [parse_value, parseBool, h1, h2]

/-- Witness for C6 at the concrete non-boolean text `"tru"`. -/
theorem c6_bool_parse_witness :
    parse_value (.mk .bool "tru" []) = .err .conversionError :=
  c6_bool_parse.2.2 "tru" [] (by decide) (by decide)

/-- C7: a `chars` node always builds to `String` holding exactly its
matched text, escape sequences kept verbatim; in particular the matched
text `hello \" world\"` builds to the `String` of that same text. -/
theorem c7_chars_verbatim :
    (∀ t cs, parse_value (.mk .chars t cs) = .ok (.String t))
    ∧ parse_value (.mk .chars "hello \\\" world\\\"" []) =
      .ok (.String "hello \\\" world\\\"") := by
  exact ⟨fun t cs => by simp [parse_value], by simp [parse_value]⟩

mutual

/-- A tree whose labels are all handled never reaches the panic fallback.
-/
theorem parse_value_no_panic (p : Pair) (h : allHandled p = true) :
    ∀ m, parse_value p ≠ .panic m := by
  match p with
  | .mk r text children =>
    rw [allHandled, Bool.and_eq_true] at h
    intro m
    match r with
    | .chars => simp [parse_value]
    | .number => cases hn : parseF64 text <;> simp [parse_value, hn]
    | .bool => cases hb : parseBool text <;> simp [parse_value, hb]
    | .null => simp [parse_value]
    | .array =>
      cases ha : parse_array children with
      | ok vs => simp [parse_value, ha]
      | err e => simp [parse_value, ha]
      | panic q => exact absurd ha (parse_array_no_panic children h.2 q)
    | .object =>
      cases ho : parse_entries children with
      | ok es => simp [parse_value, ho]
      | err e => simp [parse_value, ho]
      | panic q => exact absurd ho (parse_entries_no_panic children h.2 q)
    | .value =>
      match children, h with
      | [], _ => simp [parse_value]
      | c :: rest, h =>
        rw [allHandledList, Bool.and_eq_true] at h
        show parse_value c ≠ .panic m
        exact parse_value_no_panic c h.2.1 m
    | .other label => simp [isHandledRule] at h

/-- A child list whose labels are all handled never makes `parse_array`
panic. -/
theorem parse_array_no_panic (cs : List Pair) (h : allHandledList cs = true) :
    ∀ m, parse_array cs ≠ .panic m := by
  match cs with
  | [] => intro m; simp [parse_array]
  | c :: cs =>
    rw [allHandledList, Bool.and_eq_true] at h
    intro m
    cases hv : parse_value c with
    | ok v =>
      cases ha : parse_array cs with
      | ok vs => simp [parse_array, hv, ha]
      | err e => simp [parse_array, hv, ha]
      | panic q => exact absurd ha (parse_array_no_panic cs h.2 q)
    | err e => simp [parse_array, hv]
    | panic q => exact absurd hv (parse_value_no_panic c h.1 q)

/-- A pair-node whose labels are all handled never makes `parse_entry`
panic. -/
theorem parse_entry_no_panic (p : Pair) (h : allHandled p = true) :
    ∀ m, parse_entry p ≠ .panic m := by
  match p with
  | .mk r s [] => intro m; simp [parse_entry]
  | .mk r s [k] => intro m; simp [parse_entry]
  | .mk r s (k :: v :: extra) =>
    rw [allHandled, Bool.and_eq_true] at h
    have hv2 : allHandled v = true := by
      have := h.2
      rw [allHandledList, Bool.and_eq_true] at this
      have := this.2
      rw [allHandledList, Bool.and_eq_true] at this
      exact this.1
    intro m
    cases hv : parse_value v with
    | ok jv => simp [parse_entry, hv]
    | err e => simp [parse_entry, hv]
    | panic q => exact absurd hv (parse_value_no_panic v hv2 q)

/-- A child list whose labels are all handled never makes `parse_entries`
panic. -/
theorem parse_entries_no_panic (cs : List Pair) (h : allHandledList cs = true) :
    ∀ m, parse_entries cs ≠ .panic m := by
  match cs with
  | [] => intro m; simp [parse_entries]
  | c :: cs =>
    rw [allHandledList, Bool.and_eq_true] at h
    intro m
    cases he : parse_entry c with
    | ok kv =>
      cases hs : parse_entries cs with
      | ok es => simp [parse_entries, he, hs]
      | err e => simp [parse_entries, he, hs]
      | panic q => exact absurd hs (parse_entries_no_panic cs h.2 q)
    | err e => simp [parse_entries, he]
    | panic q => exact absurd he (parse_entry_no_panic c h.1 q)

end

/-- C8: a node with an unhandled rule label does not produce a normal
result at all — the dispatch fallback aborts with the unexpected label as
its panic message, which is neither an `Err` return nor a `Value` — and
the fallback is unreachable for trees carrying only the seven handled
labels. -/
theorem c8_unhandled_label_panics :
    (∀ label t cs, parse_value (.mk (.other label) t cs) = .panic label)
    ∧ (∀ label t cs e, parse_value (.mk (.other label) t cs) ≠ .err e)
    ∧ (∀ label t cs v, parse_value (.mk (.other label) t cs) ≠ .ok v)
    ∧ (∀ p, allHandled p = true → ∀ m, parse_value p ≠ .panic m) := by
  refine ⟨?_, ?_, ?_, fun p h m => parse_value_no_panic p h m⟩
  · intro label t cs; simp [parse_value]
  · intro label t cs e; simp [parse_value]
  · intro label t cs v; simp [parse_value]

/-- Witness for C8: the concrete unhandled label `"json"` aborts with that
label, and a concrete fully-handled tree does not panic. -/
theorem c8_unhandled_label_panics_witness :
    parse_value (.mk (.other "json") "x" []) = .panic "json"
    ∧ allHandled (.mk .array "" [.mk .null "null" []]) = true
    ∧ parse_value (.mk .array "" [.mk .null "null" []]) ≠ .panic "json" :=
  ⟨c8_unhandled_label_panics.1 "json" "x" [],
   by rfl,
   c8_unhandled_label_panics.2.2.2 (.mk .array "" [.mk .null "null" []]) (by rfl) "json"⟩

/-- C4: a `number` node's matched text goes through the `f64` string
conversion — success wraps the parsed value in `Number`, failure is the
conversion error — and on the spec's concrete literals the conversion
yields the stated values, with `-0` carrying the negative sign bit that
distinguishes it from `0`. -/
theorem c4_number_parse :
    (∀ t cs, parse_value (.mk .number t cs) =
      match parseF64 t with
      | some v => .ok (.Number v)
      | none => .err .conversionError)
    ∧ parse_value (.mk .number "123.456" []) = .ok (.Number (.finite false 123456 (-3)))
    ∧ decValue false 123456 (-3) = 123.456
    ∧ parse_value (.mk .number "-123.456" []) = .ok (.Number (.finite true 123456 (-3)))
    ∧ decValue true 123456 (-3) = -123.456
    ∧ parse_value (.mk .number "0" []) = .ok (.Number (.finite false 0 0))
    ∧ decValue false 0 0 = 0
    ∧ parse_value (.mk .number "123" []) = .ok (.Number (.finite false 123 0))
    ∧ decValue false 123 0 = 123
    ∧ parse_value (.mk .number "-123" []) = .ok (.Number (.finite true 123 0))
    ∧ decValue true 123 0 = -123
    ∧ parse_value (.mk .number "-0" []) = .ok (.Number (.finite true 0 0))
    ∧ decValue true 0 0 = 0
    ∧ F64Val.finite true 0 0 ≠ F64Val.finite false 0 0
    ∧ parse_value (.mk .number "x1" []) = .err .conversionError := by
  refine ⟨?_, by rfl, by norm_num [decValue], by rfl, by norm_num [decValue],
    by rfl, by norm_num [decValue], by rfl, by norm_num [decValue],
    by rfl, by norm_num [decValue], by rfl, by norm_num [decValue],
    by decide, by rfl⟩
  intro t cs
  cases h : parseF64 t <;> simp [parse_value, h]

/-- Witness for C4: the general dispatch equation applied at the concrete
text `"1.5"`. -/
theorem c4_number_parse_witness :
    parse_value (.mk .number "1.5" []) = .ok (.Number (.finite false 15 (-1))) := by
  rw [c4_number_parse.1 "1.5" []]
  rfl

/-- C9: the builder is deterministic: equal input trees build to equal
results.  In this embedding `parse_value` is a Lean function, so the
program's freedom from I/O and shared mutable state is reflected by the
transformation being a pure function of the input tree alone. -/
theorem c9_deterministic :
    ∀ p q : Pair, p = q → parse_value p = parse_value q := by
  intro p q h
  rw [h]

/-- Witness for C9 at a concrete tree. -/
theorem c9_deterministic_witness :
    parse_value (.mk .null "null" []) = parse_value (.mk .null "null" []) :=
  c9_deterministic (.mk .null "null" []) (.mk .null "null" []) rfl

/-- C10: a `value` node with at least one child builds to the recursive
build of its first child, later children silently ignored; a `value` node
with no child fails with the `"expected value"` structure error. -/
theorem c10_value_unwrap :
    (∀ t c rest, parse_value (.mk .value t (c :: rest)) = parse_value c)
    ∧ (∀ t, parse_value (.mk .value t []) =
      .err (.structureError "expected value")) := by
  constructor
  · intro t c rest
    simp [parse_value]
  · intro t
    simp [parse_value]

end PJson
